import Mathlib

/-! # Verification of the `cayenne` SPICE numeric-literal resolver

Shallow embedding of `src/value.rs`: `Number::from_str` tokenizes a SPICE
numeric literal with a small lexical state machine, hands the accumulated
buffer to the standard float parser, and scales the result by an optional
unit-magnitude suffix. `f64` is modelled by `ℚ` (exact decimal arithmetic);
all decimal literals appearing here are exactly representable questions of
grammar and control flow, not of rounding. -/

/-- Lexer states of `Number::from_str` (Rust `enum NumParseState`):
`Start`, `Int`, `Float`, `ExpStart`, `Exp`. -/
inductive NumParseState where
  | Start
  | Int
  | Float
  | ExpStart
  | Exp
deriving DecidableEq, Repr

/-- Error kinds (Rust `enum NumberErrorKind`). The Rust `ParseNumberError`
struct wraps exactly one kind and carries nothing else, so the embedding
uses the kind directly. `Invalid` is the spec's `InvalidSyntax`,
`InvalidMult` the spec's `InvalidMultiplier`. -/
inductive NumberErrorKind where
  | Empty
  | Invalid
  | InvalidMult
deriving DecidableEq, Repr

/-- Rust `struct Number { value: f64, raw: String }`, with `f64`
modelled by `ℚ`. -/
structure Number where
  value : ℚ
  raw : String
deriving DecidableEq, Repr

/-- The labelled parse loop of `Number::from_str`: `state`, `value_str` and
`mult` are the loop-carried variables; the last argument is the remaining
character stream (the `raw` iterator in the source). A `break` returns the
accumulated buffer and the multiplier; an early `return` gives the error
kind. Each branch mirrors the corresponding `match` arm in the source. -/
def scanNum (state : NumParseState) (value_str : List Char) (mult : ℚ) :
    List Char → Except NumberErrorKind (List Char × ℚ)
  | [] =>
    if value_str.length > 0 then .ok (value_str, mult)
    else .error .Empty
  | c :: raw =>
    match state with
    | .Start | .ExpStart =>
      if c = '+' ∨ c = '-' ∨ c.isDigit then
        scanNum (if state = .Start then .Int else .Exp) (value_str ++ [c]) mult raw
      else .error .Invalid
    | .Int | .Float =>
      if c.isDigit then
        scanNum .Int (value_str ++ [c]) mult raw
      else if c = '.' then
        match state with
        | .Int => scanNum .Float (value_str ++ [c]) mult raw
        | _ => .error .Invalid
      else if c = 'e' ∨ c = 'E' then
        scanNum .ExpStart (value_str ++ [c]) mult raw
      else if c.isAlpha then
        match c.toUpper with
        | 'T' => .ok (value_str, 10 ^ 12)
        | 'G' => .ok (value_str, 10 ^ 9)
        | 'X' => .ok (value_str, 10 ^ 6)
        | 'K' => .ok (value_str, 10 ^ 3)
        | 'M' =>
          if (raw.take 2).map Char.toUpper = ['E', 'G'] then .ok (value_str, 10 ^ 6)
          else .ok (value_str, 1 / 10 ^ 3)
        | 'U' => .ok (value_str, 1 / 10 ^ 6)
        | 'N' => .ok (value_str, 1 / 10 ^ 9)
        | 'P' => .ok (value_str, 1 / 10 ^ 12)
        | 'F' => .ok (value_str, 1 / 10 ^ 15)
        | _ => .error .InvalidMult
      else .error .Invalid
    | .Exp =>
      if c.isDigit then
        scanNum .Exp (value_str ++ [c]) mult raw
      else .ok (value_str, mult)

/-- Numeric value of a digit string (standard positional reading). -/
def digitsToNat (ds : List Char) : Nat :=
  ds.foldl (fun a c => a * 10 + (c.toNat - 48)) 0

/-- Model of Rust `f64::from_str` applied to the accumulated buffer, with
exact `ℚ` arithmetic. Grammar, per the Rust documentation
(`inf`, `infinity` and `nan` omitted: the lexer's buffers contain only
sign characters, digits, a dot and `e`/`E`, so those branches are
unreachable from `resolve`):
`Sign? (Digit+ ('.' Digit*)? | '.' Digit+) (('e'|'E') Sign? Digit+)?` -/
def parseF64 (s : List Char) : Option ℚ :=
  let (neg, s1) :=
    match s with
    | '+' :: t => (false, t)
    | '-' :: t => (true, t)
    | t => (false, t)
  let ip := s1.takeWhile Char.isDigit
  let s2 := s1.dropWhile Char.isDigit
  let (hasPoint, fp, s3) :=
    match s2 with
    | '.' :: t => (true, t.takeWhile Char.isDigit, t.dropWhile Char.isDigit)
    | _ => (false, ([] : List Char), s2)
  if ip = [] ∧ (hasPoint = false ∨ fp = []) then none
  else
    let mant : ℚ := (digitsToNat (ip ++ fp) : ℚ) / 10 ^ fp.length
    let base : ℚ := if neg then -mant else mant
    match s3 with
    | [] => some base
    | e :: t =>
      if e = 'e' ∨ e = 'E' then
        let (eneg, t1) :=
          match t with
          | '+' :: u => (false, u)
          | '-' :: u => (true, u)
          | u => (false, u)
        let ed := t1.takeWhile Char.isDigit
        let t2 := t1.dropWhile Char.isDigit
        if ed = [] ∨ t2 ≠ [] then none
        else some (base * 10 ^ (if eneg then -(digitsToNat ed : ℤ) else (digitsToNat ed : ℤ)))
      else none

/-- `Number::from_str` (the spec's `resolve`): run the lexical loop, parse
the buffer, scale by the multiplier; `raw` keeps the entire input. -/
def resolve (s : String) : Except NumberErrorKind Number :=
  match scanNum .Start [] 1 s.data with
  | .error e => .error e
  | .ok (value_str, mult) =>
    match parseF64 value_str with
    | none => .error .Invalid
    | some v => .ok { value := v * mult, raw := s }

/-- A valid numeric body read from state `st`: the characters the lexer
accepts while staying in the `Start`/`Int`/`Float` states, paired with the
state reached when the body ends (always `Int` or `Float`). The transitions
mirror those of `scanNum` on these states; this is the claims' notion of a
"valid numeric body" to which a unit suffix may be appended. -/
def bodyFin (st : NumParseState) : List Char → Option NumParseState
  | [] =>
    match st with
    | .Int => some .Int
    | .Float => some .Float
    | _ => none
  | c :: t =>
    match st with
    | .Start => if c = '+' ∨ c = '-' ∨ c.isDigit then bodyFin .Int t else none
    | .Int =>
      if c.isDigit then bodyFin .Int t
      else if c = '.' then bodyFin .Float t
      else none
    | .Float => if c.isDigit then bodyFin .Int t else none
    | _ => none

/-- The single-letter suffix table of the spec (§4.2), case-insensitive.
`M`/`m` is excluded: it takes the `Meg` lookahead path. -/
def singleLetterMult (c : Char) : Option ℚ :=
  if c = 'T' ∨ c = 't' then some (10 ^ 12)
  else if c = 'G' ∨ c = 'g' then some (10 ^ 9)
  else if c = 'X' ∨ c = 'x' then some (10 ^ 6)
  else if c = 'K' ∨ c = 'k' then some (10 ^ 3)
  else if c = 'U' ∨ c = 'u' then some (1 / 10 ^ 6)
  else if c = 'N' ∨ c = 'n' then some (1 / 10 ^ 9)
  else if c = 'P' ∨ c = 'p' then some (1 / 10 ^ 12)
  else if c = 'F' ∨ c = 'f' then some (1 / 10 ^ 15)
  else none

/-- `PartialEq for Number`: `self.value == other.value`. -/
def Number.eq (a b : Number) : Bool :=
  a.value == b.value

/-- `PartialOrd for Number`: the value comparison. On `f64` the result is
`None` only when a NaN is involved; `ℚ` has no NaN, so the model always
yields `some`. -/
def Number.pcmp (a b : Number) : Option Ordering :=
  some (if a.value < b.value then .lt else if a.value = b.value then .eq else .gt)

lemma bodyFin_int_or_float : ∀ {b : List Char} {st fs : NumParseState},
    bodyFin st b = some fs → fs = .Int ∨ fs = .Float := by
  intro b
  induction b with
  | nil =>
    intro st fs h
    cases st <;> simp [bodyFin] at h <;> simp [← h]
  | cons c t ih =>
    intro st fs h
    cases st <;> simp [bodyFin] at h
    · exact ih h.2
    · by_cases hd : c.isDigit
      · simp [hd] at h
        exact ih h
      · simp [hd] at h
        exact ih h.2
    · exact ih h.2

lemma scanNum_body_append : ∀ {b : List Char} {st fs : NumParseState}
    (buf : List Char) (mult : ℚ) (rest : List Char),
    bodyFin st b = some fs →
    scanNum st buf mult (b ++ rest) = scanNum fs (buf ++ b) mult rest := by
  intro b
  induction b with
  | nil =>
    intro st fs buf mult rest h
    cases st <;> simp [bodyFin] at h <;> simp [← h]
  | cons c t ih =>
    intro st fs buf mult rest h
    cases st <;> simp [bodyFin] at h
    · obtain ⟨hc, h⟩ := h
      rw [List.cons_append, scanNum, if_pos hc]
      simpa using ih (buf ++ [c]) mult rest h
    · by_cases hd : c.isDigit
      · simp [hd] at h
        rw [List.cons_append, scanNum]
        simp only [hd, if_true]
        simpa using ih (buf ++ [c]) mult rest h
      · simp [hd] at h
        obtain ⟨hdot, h⟩ := h
        subst hdot
        rw [List.cons_append, scanNum]
        simp only [hd, if_false, if_true]
        simpa using ih (buf ++ ['.']) mult rest h
    · by_cases hd : c.isDigit
      · simp [hd] at h
        rw [List.cons_append, scanNum]
        simp only [hd, if_true]
        simpa using ih (buf ++ [c]) mult rest h
      · simp [hd] at h

lemma scanNum_unit_step {fs : NumParseState} (hfs : fs = .Int ∨ fs = .Float)
    (buf : List Char) (mult : ℚ) {L : Char} {m : ℚ}
    (hL : singleLetterMult L = some m) (rest : List Char) :
    scanNum fs buf mult (L :: rest) = .ok (buf, m) := by
  rcases hfs with rfl | rfl <;>
    ( simp only [singleLetterMult] at hL
      split_ifs at hL <;>
        first
        | exact Option.noConfusion hL
        | ( obtain rfl := Option.some.inj hL
            casesm _ ∨ _ <;> subst_vars <;> simp [scanNum] ) )

lemma scanNum_m_step {fs : NumParseState} (hfs : fs = .Int ∨ fs = .Float)
    (buf : List Char) (mult : ℚ) {L : Char} (hL : L = 'M' ∨ L = 'm') (rest : List Char) :
    scanNum fs buf mult (L :: rest) =
      .ok (buf, if (rest.take 2).map Char.toUpper = ['E', 'G'] then 10 ^ 6 else 1 / 10 ^ 3) := by
  rcases hfs with rfl | rfl <;> rcases hL with rfl | rfl <;>
    ( simp [scanNum, apply_ite]
      split <;> simp_all )

lemma alpha_not_digit {c : Char} (h : c.isAlpha = true) : c.isDigit = false := by
  simp [Char.isAlpha, Char.isUpper, Char.isLower, Char.isDigit,
    UInt32.le_def, BitVec.le_def] at *
  omega

lemma alpha_ne_dot {c : Char} (h : c.isAlpha = true) : c ≠ '.' := by
  rintro rfl
  simp [Char.isAlpha, Char.isUpper, Char.isLower] at h

lemma scanNum_ne_empty : ∀ (input : List Char) (st : NumParseState)
    (buf : List Char) (mult : ℚ), buf ≠ [] →
    scanNum st buf mult input ≠ .error .Empty := by
  intro input
  induction input with
  | nil =>
    intro st buf mult hbuf
    have hl : buf.length > 0 := List.length_pos.mpr hbuf
    simp [scanNum, hl]
  | cons c t ih =>
    intro st buf mult hbuf
    cases st <;>
      ( simp only [scanNum]
        repeat' split
        all_goals
          first
          | (simp; done)
          | ( apply ih
              simp ) )

lemma resolve_cons_ne_empty (c : Char) (t : List Char) :
    resolve (String.mk (c :: t)) ≠ .error .Empty := by
  have hscan : scanNum .Start [] 1 (c :: t) ≠ .error .Empty := by
    simp only [scanNum]
    split
    · exact scanNum_ne_empty t _ _ 1 (by simp)
    · simp
  simp only [resolve]
  cases hs : scanNum .Start [] 1 (String.mk (c :: t)).data with
  | error e =>
    have : e ≠ .Empty := fun h => hscan (h ▸ hs)
    simp [this]
  | ok p =>
    obtain ⟨vs, m⟩ := p
    cases hp : parseF64 vs <;> simp [hp]

/-- C1: for every valid numeric body `b` (a sign-or-digit opener followed by
digits and well-placed decimal points, read by the lexer inside the
`Start`/`Int`/`Float` states) that the float parser accepts with value `q`,
and every single-letter suffix in `{T,G,X,K,U,N,P,F}` in either case with
table multiplier `m`, resolving `b ++ [letter]` succeeds with value
`q * m`. -/
theorem c1_single_letter_suffix (b : List Char) (L : Char) (q m : ℚ)
    (fs : NumParseState) (hb : bodyFin .Start b = some fs)
    (hq : parseF64 b = some q) (hL : singleLetterMult L = some m) :
    resolve (String.mk (b ++ [L])) = .ok ⟨q * m, String.mk (b ++ [L])⟩ := by
  have hscan : scanNum .Start [] 1 (String.mk (b ++ [L])).data = .ok (b, m) := by
    rw [show (String.mk (b ++ [L])).data = b ++ [L] from rfl]
    rw [scanNum_body_append [] 1 [L] hb]
    simpa using scanNum_unit_step (bodyFin_int_or_float hb) b 1 hL []
  simp [resolve, hscan, hq]

theorem c1_witness : resolve "+123t" = .ok ⟨123 * 10 ^ 12, "+123t"⟩ := by
  have h := c1_single_letter_suffix (['+', '1', '2', '3']) 't' 123 (10 ^ 12) .Int
    (by rfl) (by simp [parseF64, digitsToNat]) (by rfl)
  exact h

/-- C2: when the first suffix letter is `M`/`m`, the next two stream
characters are read; if they case-fold to `EG` the multiplier is `1e6`,
otherwise (shorter lookahead included) `1e-3`. In particular
`resolve "7343Meg"` is `7343e6` and `resolve "-8484.00923m"` is
`-8484.00923e-3`. -/
theorem c2_meg_lookahead :
    (∀ (b : List Char) (L : Char) (rest : List Char) (q : ℚ) (fs : NumParseState),
      bodyFin .Start b = some fs → parseF64 b = some q → (L = 'M' ∨ L = 'm') →
      resolve (String.mk (b ++ L :: rest)) =
        .ok ⟨q * (if (rest.take 2).map Char.toUpper = ['E', 'G'] then 10 ^ 6 else 1 / 10 ^ 3),
             String.mk (b ++ L :: rest)⟩)
    ∧ resolve "7343Meg" = .ok ⟨7343 * 10 ^ 6, "7343Meg"⟩
    ∧ resolve "-8484.00923m" = .ok ⟨-(848400923 / 10 ^ 8), "-8484.00923m"⟩ := by
  refine ⟨?_, by simp [resolve, scanNum, parseF64, digitsToNat], ?_⟩
  · intro b L rest q fs hb hq hL
    have hscan : scanNum .Start [] 1 (String.mk (b ++ L :: rest)).data =
        .ok (b, if (rest.take 2).map Char.toUpper = ['E', 'G'] then 10 ^ 6 else 1 / 10 ^ 3) := by
      rw [show (String.mk (b ++ L :: rest)).data = b ++ L :: rest from rfl]
      rw [scanNum_body_append [] 1 (L :: rest) hb]
      simpa using scanNum_m_step (bodyFin_int_or_float hb) b 1 hL rest
    simp [resolve, hscan, hq]
  · simp [resolve, scanNum, parseF64, digitsToNat]
    norm_num

theorem c2_witness : resolve "5Meg" = .ok ⟨5 * 10 ^ 6, "5Meg"⟩ := by
  have h := c2_meg_lookahead.1 ['5'] 'M' ['e', 'g'] 5 .Int
    (by rfl) (by simp [parseF64, digitsToNat]) (.inl rfl)
  simpa using h

/-- C3: in the `Exp` (exponent-digits) state any non-digit character ends
the scan without error and without suffix resolution, leaving the
multiplier untouched; `resolve "123e3F"` is `123e3`, not
`123e3 * 1e-15`. -/
theorem c3_exp_suffix_ignored :
    (∀ (buf : List Char) (mult : ℚ) (c : Char) (rest : List Char),
      c.isDigit = false →
      scanNum .Exp buf mult (c :: rest) = .ok (buf, mult))
    ∧ resolve "123e3F" = .ok ⟨123000, "123e3F"⟩ := by
  constructor
  · intro buf mult c rest h
    simp [scanNum, h]
  · simp [resolve, scanNum, parseF64, digitsToNat]
    norm_num

theorem c3_witness : scanNum .Exp ['1'] 1 ['F'] = .ok (['1'], 1) :=
  c3_exp_suffix_ignored.1 ['1'] 1 'F' [] (by decide)

/-- C4: a digit in `Int`/`Float` always transitions back to `Int`, so the
lexer accepts `1.2.3` whole; the malformed buffer is rejected only by the
final float parse, and `resolve "1.2.3"` is an `Invalid` (spec:
`InvalidSyntax`) error. -/
theorem c4_multi_point :
    (∀ (c : Char) (buf : List Char) (mult : ℚ) (rest : List Char),
      c.isDigit = true →
      scanNum .Float buf mult (c :: rest) = scanNum .Int (buf ++ [c]) mult rest)
    ∧ scanNum .Start [] 1 ['1', '.', '2', '.', '3'] = .ok (['1', '.', '2', '.', '3'], 1)
    ∧ parseF64 ['1', '.', '2', '.', '3'] = none
    ∧ resolve "1.2.3" = .error .Invalid := by
  refine ⟨?_, by rfl, by rfl, by simp [resolve, scanNum, parseF64]⟩
  intro c buf mult rest h
  simp [scanNum, h]

theorem c4_witness : scanNum .Float ['1', '.'] 1 ['5'] = scanNum .Int ['1', '.', '5'] 1 [] :=
  c4_multi_point.1 '5' ['1', '.'] 1 [] (by decide)

/-- C5: in `Int`/`Float`, an alphabetic character other than the exponent
marker whose upper-casing is outside `{T,G,X,K,M,U,N,P,F}` yields an
`InvalidMult` (spec: `InvalidMultiplier`) error; in particular
`resolve "474.0W"`. -/
theorem c5_invalid_mult :
    (∀ (fs : NumParseState) (buf : List Char) (mult : ℚ) (c : Char) (rest : List Char),
      (fs = .Int ∨ fs = .Float) → c.isAlpha = true → c ≠ 'e' → c ≠ 'E' →
      c.toUpper ∉ (['T', 'G', 'X', 'K', 'M', 'U', 'N', 'P', 'F'] : List Char) →
      scanNum fs buf mult (c :: rest) = .error .InvalidMult)
    ∧ resolve "474.0W" = .error .InvalidMult := by
  refine ⟨?_, by simp [resolve, scanNum]⟩
  intro fs buf mult c rest hfs halpha he hE hnot
  have hd := alpha_not_digit halpha
  have hdot := alpha_ne_dot halpha
  have he' : ¬(c = 'e' ∨ c = 'E') := by tauto
  rcases hfs with rfl | rfl <;>
    ( simp only [scanNum, hd, hdot, he', halpha, Bool.false_eq_true, if_false, if_true]
      split <;> simp_all )

theorem c5_witness : scanNum .Int ['4'] 1 ['W'] = .error .InvalidMult :=
  c5_invalid_mult.1 .Int ['4'] 1 'W' [] (.inl rfl) (by decide) (by decide)
    (by decide) (by decide)

/-- C6: `resolve` returns an `Empty` error exactly on the empty string, and
end of stream with a non-empty buffer terminates the loop normally. -/
theorem c6_empty_iff :
    (∀ s : String, resolve s = .error .Empty ↔ s = "")
    ∧ (∀ (st : NumParseState) (buf : List Char) (mult : ℚ), buf ≠ [] →
        scanNum st buf mult [] = .ok (buf, mult)) := by
  constructor
  · intro s
    obtain ⟨l⟩ := s
    cases l with
    | nil =>
      constructor
      · intro _
        rfl
      · intro _
        rfl
    | cons c t =>
      constructor
      · intro h
        exact absurd h (resolve_cons_ne_empty c t)
      · intro h
        exact absurd (congrArg String.data h) (by simp)
  · intro st buf mult hbuf
    have hl : buf.length > 0 := List.length_pos.mpr hbuf
    simp [scanNum, hl]

theorem c6_witness : scanNum .Int ['1'] 1 [] = .ok (['1'], 1) :=
  c6_empty_iff.2 .Int ['1'] 1 (by decide)

/-- C7: on every success the `raw` field is the entire, unmodified input,
regardless of how much of it the lexer consumed; e.g. `"+123"` and
`"1.23pFarad"`. -/
theorem c7_raw_whole_input :
    (∀ (s : String) (n : Number), resolve s = .ok n → n.raw = s)
    ∧ resolve "+123" = .ok ⟨123, "+123"⟩
    ∧ resolve "1.23pFarad" = .ok ⟨123 / 10 ^ 14, "1.23pFarad"⟩ := by
  refine ⟨?_, by simp [resolve, scanNum, parseF64, digitsToNat], ?_⟩
  · intro s n h
    simp only [resolve] at h
    split at h
    · exact absurd h (by simp)
    · split at h
      · exact absurd h (by simp)
      · obtain rfl := (Except.ok.inj h).symm
        rfl
  · simp [resolve, scanNum, parseF64, digitsToNat]
    norm_num

theorem c7_witness : (Number.mk 123 "+123").raw = "+123" :=
  c7_raw_whole_input.1 "+123" ⟨123, "+123"⟩
    (by simp [resolve, scanNum, parseF64, digitsToNat])

/-- C8: equality and ordering of `Number` are determined solely by `value`:
equal values compare equal with ordering `Equal`, and `raw` never affects
either comparison. -/
theorem c8_value_only_comparison :
    (∀ a b : Number, a.value = b.value →
      Number.eq a b = true ∧ Number.pcmp a b = some Ordering.eq)
    ∧ (∀ (v w : ℚ) (r₁ r₂ r₃ r₄ : String),
      Number.eq ⟨v, r₁⟩ ⟨w, r₂⟩ = Number.eq ⟨v, r₃⟩ ⟨w, r₄⟩ ∧
      Number.pcmp ⟨v, r₁⟩ ⟨w, r₂⟩ = Number.pcmp ⟨v, r₃⟩ ⟨w, r₄⟩) := by
  constructor
  · intro a b h
    constructor
    · simp [Number.eq, h]
    · simp [Number.pcmp, h]
  · intro v w r₁ r₂ r₃ r₄
    exact ⟨rfl, rfl⟩

theorem c8_witness :
    Number.eq ⟨1, "1"⟩ ⟨1, "1.0"⟩ = true ∧
    Number.pcmp ⟨1, "1"⟩ ⟨1, "1.0"⟩ = some Ordering.eq :=
  c8_value_only_comparison.1 ⟨1, "1"⟩ ⟨1, "1.0"⟩ rfl

/-- C9: `resolve` is a total function: every input yields a `Number` or
one of the three error kinds. -/
theorem c9_total_trichotomy (s : String) :
    (∃ n, resolve s = .ok n) ∨ resolve s = .error .Empty ∨
    resolve s = .error .Invalid ∨ resolve s = .error .InvalidMult := by
  cases h : resolve s with
  | ok n => exact .inl ⟨n, rfl⟩
  | error e => cases e <;> simp

/-- C10: a lone sign is buffered, the scan terminates with a non-empty
buffer, and the final float parse rejects it: `resolve "+"` and
`resolve "-"` are `Invalid` (spec: `InvalidSyntax`) errors, not `Empty`. -/
theorem c10_sign_only :
    scanNum .Start [] 1 ['+'] = .ok (['+'], 1)
    ∧ parseF64 ['+'] = none
    ∧ resolve "+" = .error .Invalid
    ∧ resolve "-" = .error .Invalid := by
  refine ⟨by rfl, by rfl, ?_, ?_⟩ <;> simp [resolve, scanNum, parseF64]
